import Mathlib

/-!
Verification development for the vRain vertical typesetting and pagination
engine (`src/vrain.py`, with the novel variant `src/vrainNovel.py`).

The development shallowly embeds, in Lean 4:

* the position grid builder (`VRainPerfect.calculate_positions`,
  `src/vrain.py` lines 270-319);
* the text preprocessor's row padding (`VRainPerfect.load_texts`,
  `src/vrain.py` lines 372-492);
* the font resolver (`VRainPerfect.get_font`, lines 332-341);
* the pagination main loop (`VRainPerfect.process_text_layout_complete`,
  lines 793-1180).

Conventions of the embedding:

* Python `int` config values and float coordinate arithmetic are embedded
  into `ℚ`.  Every coordinate computed by the engine is a sum/product/
  quotient of config integers, so the `ℚ` values agree with the ideal
  real-number reading of the source; cell counts stay in `ℕ`.
* The cell pointer `pcnt` takes values in half cells (each annotation glyph
  advances it by `0.5`), and the only fractional values that ever occur are
  halves, which binary floats represent exactly.  We therefore store
  `pcnt2 = 2 * pcnt : ℕ`; Python's `int(pcnt)` is `pcnt2 / 2` and
  `int(pcnt + 0.5)` is `(pcnt2 + 1) / 2` in `ℕ` division.
* External collaborators (PDF canvas, font files, the OpenCC script
  converter) are replaced by emitted draw events resp. oracle functions in
  the engine configuration, exactly as the spec's collaborator contracts
  describe them.
* Debug-only branches of the source (the `-z` page-limit test mode and
  `-v` verbose printing) are elided; the verbose warning print for a
  dropped annotation character is kept as an explicit `warnDrop` event.
-/

namespace VRain

/-- Canvas geometry, read from `canvas/<id>.cfg` and the book config in
`calculate_positions`: `canvas_width`, `canvas_height`, `margins_top`,
`margins_bottom`, `margins_left`, `margins_right`, `leaf_col`,
`leaf_center_width`, `row_num`, `row_delta_y`. -/

structure Geo where
  W : ℚ      -- canvas_width
  H : ℚ      -- canvas_height
  mt : ℚ     -- margins_top
  mb : ℚ     -- margins_bottom
  ml : ℚ     -- margins_left
  mr : ℚ     -- margins_right
  C : ℕ      -- leaf_col (column count)
  g : ℚ      -- leaf_center_width (spine gutter)
  R : ℕ      -- row_num (rows per column)
  dy : ℚ     -- row_delta_y (vertical row offset)
deriving DecidableEq

/-- Column width: `cw = (canvas_width - margins_left - margins_right - lc_width) / col_num`. -/

def cwQ (geo : Geo) : ℚ := (geo.W - geo.ml - geo.mr - geo.g) / (geo.C : ℚ)

/-- Row height: `rh = (canvas_height - margins_top - margins_bottom) / row_num`. -/

def rhQ (geo : Geo) : ℚ := (geo.H - geo.mt - geo.mb) / (geo.R : ℚ)

/-- Left-anchor coordinate of column `i` (1-based), row `j` (1-based), as
computed inside the double loop of `calculate_positions`:
`pos_x = canvas_width - margins_right - cw*i` when `i <= col_num // 2`,
otherwise additionally shifted left by the gutter; and
`pos_y = canvas_height - margins_top - rh*j + row_delta_y`. -/

def cellL (geo : Geo) (i j : ℕ) : ℚ × ℚ :=
  (if i ≤ geo.C / 2 then geo.W - geo.mr - cwQ geo * i
   else geo.W - geo.mr - cwQ geo * i - geo.g,
   geo.H - geo.mt - rhQ geo * j + geo.dy)

/-- Right-anchor coordinate: the left anchor shifted by half a column width,
`pos_r.append([pos_x + cw/2, pos_y])`. -/

def cellR (geo : Geo) (i j : ℕ) : ℚ × ℚ :=
  ((cellL geo i j).1 + cwQ geo / 2, (cellL geo i j).2)

/-- The first `n` columns of the grid, flattened in the order the source's
nested `for i ... for j ...` loop appends them. -/

def gridCols (R : ℕ) (f : ℕ → ℕ → ℚ × ℚ) : ℕ → List (ℚ × ℚ)
  | 0 => []
  | n + 1 => gridCols R f n ++ (List.range R).map (fun b => f (n + 1) (b + 1))

/-- `pos_l`: index 0 holds the `[0, 0]` placeholder so that cell indices run
from 1, matching the Perl-style 1-based arrays of the source. -/

def pos_l (geo : Geo) : List (ℚ × ℚ) :=
  ((0 : ℚ), (0 : ℚ)) :: gridCols geo.R (cellL geo) geo.C

/-- `pos_r`: right-anchor list, same layout as `pos_l`. -/

def pos_r (geo : Geo) : List (ℚ × ℚ) :=
  ((0 : ℚ), (0 : ℚ)) :: gridCols geo.R (cellR geo) geo.C

/-- `self.page_chars_num = col_num * row_num` (`src/vrain.py` line 309). -/

def pageCharsNum (geo : Geo) : ℕ := geo.C * geo.R

/-- The §3 validity invariant on canvas geometry. -/

def validGeo (geo : Geo) : Prop :=
  geo.ml + geo.mr + geo.g < geo.W ∧ geo.mt + geo.mb < geo.H ∧ 0 < geo.C ∧ 0 < geo.R

instance (geo : Geo) : Decidable (validGeo geo) := by
  unfold validGeo; infer_instance

/-- Membership in the page rectangle `[leftMargin, width - rightMargin] ×
[bottomMargin, height - topMargin]`. -/

def inRect (geo : Geo) (p : ℚ × ℚ) : Prop :=
  geo.ml ≤ p.1 ∧ p.1 ≤ geo.W - geo.mr ∧ geo.mb ≤ p.2 ∧ p.2 ≤ geo.H - geo.mt

instance (geo : Geo) (p : ℚ × ℚ) : Decidable (inRect geo p) := by
  unfold inRect; infer_instance

/-- Geometry witnessing that the §3 invariant alone does not keep cell
coordinates inside the page rectangle: the row offset exceeds the row
height, pushing the first row's anchor above the top margin line. -/

def geoCex : Geo :=
  { W := 4, H := 4, mt := 1, mb := 1, ml := 1, mr := 1, C := 1, g := 1, R := 1, dy := 10 }

/-- A second, well-behaved geometry (row offset at most one row height). -/

def geoOk : Geo :=
  { W := 6, H := 4, mt := 1, mb := 1, ml := 1, mr := 1, C := 2, g := 1, R := 2, dy := 1 }

/-!
## Text preprocessor (`load_texts`, `src/vrain.py` lines 372-492)

The config-driven regex substitution phase (`exp_replace_comma`,
`exp_replace_number`, `exp_delete_comma`, `exp_nocomma`, `exp_onlyperiod`,
the `@` → space replacement) runs before the padding computation and only
determines which characters remain in the line; the padding logic below
receives the line after that phase.  Character-class deletions
(`re.sub('[...]', '', line)`) are embedded as list filters, and the
non-greedy span scan `re.finditer('【(.*?)】', line)` as a left-to-right
scan for the nearest closing mark.
-/

/-- `re.sub('[<chars>]', '', line)`: remove every character of the class. -/

def stripChars (nop : List Char) (l : List Char) : List Char :=
  l.filter (fun c => c ∉ nop)

/-- `line = re.sub('《|》', '', line)` when `if_book_vline == 1`. -/

def stripTitleMarks (vline : Bool) (l : List Char) : List Char :=
  if vline then l.filter (fun c => c ≠ '《' ∧ c ≠ '》') else l

/-- The non-greedy scan of `re.finditer('【(.*?)】', line)` together with
`re.sub('【.*?】', '', line)`: returns the body characters outside the
annotation spans and the list of spans.  A `【` with no later `】` stays in
the body, as the regex leaves it unmatched. -/

def extractSpans (l : List Char) : List Char × List (List Char) :=
  match l with
  | [] => ([], [])
  | c :: rest =>
    if c = '【' ∧ '】' ∈ rest then
      let span := rest.takeWhile (fun x => x ≠ '】')
      let p := extractSpans ((rest.dropWhile (fun x => x ≠ '】')).tail)
      (p.1, span :: p.2)
    else
      let p := extractSpans rest
      (c :: p.1, p.2)
termination_by l.length
decreasing_by
  · have h1 : (rest.dropWhile (fun x => x ≠ '】')).length ≤ rest.length :=
      (List.dropWhile_sublist _).length_le
    have h2 := List.length_tail (rest.dropWhile (fun x => x ≠ '】'))
    simp only [List.length_cons]
    omega
  · simp only [List.length_cons]
    omega

/-- Packing cost of an annotation of `n` characters:
`n // 2` when even, `n // 2 + 1` when odd. -/

def halfUp (n : ℕ) : ℕ := if n % 2 = 0 then n / 2 else n / 2 + 1

/-- Cost charged for one annotation span: the span is first stripped of the
`comment_comma_nop` class and (in side-rule mode) of title marks. -/

def spanCost (cmtNopClean : List Char) (vline : Bool) (span : List Char) : ℕ :=
  halfUp (stripTitleMarks vline (stripChars cmtNopClean span)).length

/-- Body/annotation decomposition used by the padding computation: the line is
stripped of the `text_comma_nop` class, the `comment_comma_nop` class and
(in side-rule mode) title marks, then annotation spans are extracted. -/

def effParts (textNopClean cmtNopClean : List Char) (vline : Bool) (l : List Char) :
    List Char × List (List Char) :=
  extractSpans (stripTitleMarks vline (stripChars cmtNopClean (stripChars textNopClean l)))

/-- `chars_len + rnum`: remaining body characters plus the summed packing
costs of the annotation spans. -/

def effN (textNopClean cmtNopClean : List Char) (vline : Bool) (l : List Char) : ℕ :=
  (effParts textNopClean cmtNopClean vline l).1.length +
    ((effParts textNopClean cmtNopClean vline l).2.map (spanCost cmtNopClean vline)).sum

/-- `spaces_num = row_num - (chars_len + rnum) + ((chars_len + rnum) // row_num) * row_num`
(Python integer arithmetic, hence `ℤ`). -/

def spacesNum (R n : ℕ) : ℤ := (R : ℤ) - (n : ℤ) + ((n / R : ℕ) : ℤ) * (R : ℤ)

/-- Number of pad spaces actually appended: `if 0 < spaces_num < row_num`. -/

def padCount (R n : ℕ) : ℕ :=
  if 0 < spacesNum R n ∧ spacesNum R n < (R : ℤ) then (spacesNum R n).toNat else 0

/-- One preprocessed paragraph as appended to the character stream:
`dat += tmpstr` followed by the pad spaces. -/

def processLine (textNopClean cmtNopClean : List Char) (vline : Bool) (R : ℕ)
    (l : List Char) : List Char :=
  l ++ List.replicate (padCount R (effN textNopClean cmtNopClean vline l)) ' '

/-!
## Pagination engine (`process_text_layout_complete`, `src/vrain.py` lines 793-1180)

The engine configuration gathers the book/canvas settings read at the top of
the function and the two external collaborators: the font catalog
(`font_check`, abstracted as `hasGlyph`; `fn in self.vfonts`, abstracted as
`registered`) and the OpenCC-based script converter (`try_st_trans`,
abstracted as `stTrans`, with `none` for its empty-string failure result).
Punctuation class strings (`text_comma_nop` etc.) are kept raw — as in the
source, single-character membership tests run against the raw string with
its `|` separators, while character-class deletions use the cleaned string.
PDF canvas calls become emitted events.
-/

/-- Engine configuration: the values `process_text_layout_complete` reads
from `self.book`, `self.canvas_config`, `self.fonts` and the collaborators. -/

structure Cfg where
  N : ℕ                        -- self.page_chars_num
  R : ℕ                        -- self.row_num
  posL : List (ℚ × ℚ)          -- self.pos_l
  posR : List (ℚ × ℚ)          -- self.pos_r
  cw : ℚ                       -- self.cw
  rh : ℚ                       -- self.rh
  mb : ℚ                       -- self.margins_bottom
  mt : ℚ                       -- self.margins_top
  cH : ℚ                       -- canvas_height
  fns : List String            -- self.fns (font1..font5)
  tfns : List String           -- self.tfns (body font list)
  cfns : List String            -- self.cfns (annotation font list)
  hasGlyph : String → Char → Bool   -- font_check collaborator
  registered : String → Bool        -- fn in self.vfonts
  bodySize : String → ℚ        -- self.fonts[fn][0]
  cmtSize : String → ℚ         -- self.fonts[fn][1]
  deg : String → ℚ             -- self.fonts[fn][2]
  trySt : Bool                 -- try_st
  stTrans : Char → Option Char -- try_st_trans collaborator
  textNop : List Char          -- text_comma_nop (raw, pipes kept)
  text90 : List Char           -- text_comma_90 (pipes removed in source)
  cmtNop : List Char           -- comment_comma_nop (raw, pipes kept)
  cmt90 : List Char            -- comment_comma_90 (pipes removed in source)
  tNopSize : ℚ
  tNopX : ℚ
  tNopY : ℚ
  t90Size : ℚ
  t90X : ℚ
  t90Y : ℚ
  cNopSize : ℚ
  cNopX : ℚ
  cNopY : ℚ
  c90Size : ℚ
  c90X : ℚ
  c90Y : ℚ
  vline : Bool                 -- if_book_vline == 1
  onlyPeriod : Bool            -- if_onlyperiod == 1
  textColor : String           -- text_font_color
  cmtColor : String            -- comment_font_color
  opColor : String             -- onlyperiod_color

/-- Mutable engine state at the top of each `while True` iteration. -/

structure St where
  chars : List Char   -- body character stream
  rchars : List Char  -- pending annotation queue
  pcnt2 : ℕ           -- 2 * pcnt (cell pointer, in half cells)
  pid : ℕ             -- page index
  flagT : Bool        -- flag_tbook
  flagR : Bool        -- flag_rbook
  last : ℚ × ℚ        -- last (previous body glyph's drawn coordinate)
deriving DecidableEq

/-- Draw instructions and page events emitted to the renderer collaborator. -/

inductive Ev where
  | page : ℕ → Ev                                  -- add_page_number(pid)
  | newPage : ℕ → Ev                               -- showPage + background + title
  | glyph : Char → ℚ → ℚ → String → ℚ → ℚ → String → Ev
      -- character, x, y, font, size, rotation, color
  | rule : ℚ → ℚ → ℚ → Ev                          -- title-mark side rule: x, y1, y2
  | warnDrop : Char → Ev                           -- dropped annotation character
deriving DecidableEq

/-- `get_font`: whitespace resolves to the first candidate, otherwise the
first candidate whose glyph table supports the character. -/

def get_font (cfg : Cfg) (ch : Char) (fl : List String) : Option String :=
  if ch = ' ' ∨ ch = '　' then fl.head?
  else fl.find? (fun f => cfg.hasGlyph f ch)

/-- Body-glyph font resolution chain (lines 1093-1102): `get_font` on the
body list, then script-conversion fallback when enabled, then the `□`
placeholder. -/

def resolveBody (cfg : Cfg) (ch : Char) : Char × Option String :=
  let f0 := get_font cfg ch cfg.tfns
  let s1 : Char × Option String :=
    if f0 = none ∧ cfg.trySt then
      match cfg.stTrans ch with
      | some c => (c, cfg.tfns.head?)
      | none => (ch, f0)
    else (ch, f0)
  if s1.2 = none then ('□', get_font cfg '□' cfg.tfns) else s1

/-- Annotation-glyph font resolution chain (lines 930-941): here the script
fallback fires when the character resolved to a non-primary font. -/

def resolveCmt (cfg : Cfg) (ch : Char) : Char × Option String :=
  let f0 := get_font cfg ch cfg.cfns
  let s1 : Char × Option String :=
    if f0 ≠ none ∧ f0 ≠ cfg.fns.head? ∧ cfg.trySt then
      match cfg.stTrans ch with
      | some c => (c, cfg.cfns.head?)
      | none => (ch, f0)
    else (ch, f0)
  if s1.2 = none then ('□', get_font cfg '□' cfg.cfns) else s1

/-- The side rule drawn beside a body glyph (lines 1156-1162):
`line(fx-2, fy-rh*0.3, fx-2, ply)` with `ply = fy + rh*0.7` clamped below
the top margin line. -/

def mkRuleT (cfg : Cfg) (fx fy : ℚ) : Ev :=
  let ply0 := fy + cfg.rh * (7/10)
  let ply := if cfg.cH - cfg.mt ≤ ply0 then cfg.cH - cfg.mt - 5 else ply0
  Ev.rule (fx - 2) (fy - cfg.rh * (3/10)) ply

/-- The side rule beside an annotation glyph (lines 1010-1017): offset
`fx-1` instead of `fx-2`. -/

def mkRuleC (cfg : Cfg) (fx fy : ℚ) : Ev :=
  let ply0 := fy + cfg.rh * (7/10)
  let ply := if cfg.cH - cfg.mt ≤ ply0 then cfg.cH - cfg.mt - 5 else ply0
  Ev.rule (fx - 1) (fy - cfg.rh * (3/10)) ply

/-- Result of the inner annotation-placement loop
(`while rchars: rc = rchars.pop(0) ...`, lines 915-1017). -/

structure AnnRes where
  evs : List Ev         -- draw events, in emission order
  rem : List Char       -- remaining annotation queue (left by a break)
  rpos : List (ℚ × ℚ)   -- remaining slice of r_pos
  p2 : ℕ                -- updated cell pointer (half cells)
  fR : Bool             -- flag_rbook
  rlast : ℚ × ℚ         -- rlast

/-- The inner annotation loop.  Each queued character is popped; title marks
toggle `flag_rbook` (and are skipped in side-rule mode); the character is
resolved against the annotation font list; a character of the
`comment_comma_nop` class is drawn at `rlast` without consuming a slot;
otherwise the next `r_pos` slot is consumed and the pointer advances by one
half cell — and when no slot remains the character is dropped with a warning
and the loop stops. -/

def annLoop (cfg : Cfg) : List Char → List (ℚ × ℚ) → ℕ → Bool → ℚ × ℚ → AnnRes
  | [], rpos, p2, fR, rl => ⟨[], [], rpos, p2, fR, rl⟩
  | rc :: rest, rpos, p2, fR, rl =>
    let fR1 := if rc = '《' then true else if rc = '》' then false else fR
    if (rc = '《' ∨ rc = '》') ∧ cfg.vline then
      annLoop cfg rest rpos p2 fR1 rl
    else
      match resolveCmt cfg rc with
      | (_, none) => annLoop cfg rest rpos p2 fR1 rl
      | (rc2, some fn) =>
        if cfg.registered fn = false then annLoop cfg rest rpos p2 fR1 rl
        else
          let fsize := cfg.cmtSize fn
          let fcolor := if cfg.onlyPeriod ∧ rc2 = '。' then
              (if cfg.opColor ≠ "" then cfg.opColor else cfg.cmtColor)
            else cfg.cmtColor
          if rc2 ∈ cfg.cmtNop then
            let fx := rl.1 + cfg.cw / 2 * cfg.cNopX
            let fy0 := rl.2 - cfg.rh * cfg.cNopY
            let fy := if fy0 - cfg.mb < 10 then cfg.mb + 10 else fy0
            let ev := Ev.glyph rc2 fx fy fn (fsize * cfg.cNopSize) (cfg.deg fn) fcolor
            let rules := if cfg.vline ∧ fR1 then [mkRuleC cfg fx fy] else []
            let res := annLoop cfg rest rpos p2 fR1 rl
            ⟨ev :: rules ++ res.evs, res.rem, res.rpos, res.p2, res.fR, res.rlast⟩
          else
            match rpos with
            | [] => ⟨[Ev.warnDrop rc2], rest, [], p2, fR1, rl⟩
            | rp :: rps =>
              let fx0 := rp.1 + (cfg.cw - fsize * 2) / 4
              let fy0 := rp.2 + (cfg.rh - fsize) / 4
              let a : ℚ × ℚ × ℚ × ℚ :=
                if rc2 ∈ cfg.cmt90 then
                  (fx0 + cfg.cw / 2 * cfg.c90X, fy0 + cfg.rh * cfg.c90Y,
                   fsize * cfg.c90Size, (-90 : ℚ))
                else (fx0, fy0, fsize, cfg.deg fn)
              let ev := Ev.glyph rc2 a.1 a.2.1 fn a.2.2.1 a.2.2.2 fcolor
              let rules := if cfg.vline ∧ fR1 then [mkRuleC cfg a.1 a.2.1] else []
              let res := annLoop cfg rest rps (p2 + 1) fR1 rp
              ⟨ev :: rules ++ res.evs, res.rem, res.rpos, res.p2, res.fR, res.rlast⟩

/-- The `r_pos` slice for the current annotation run (lines 886-907):
right-anchor cells `pcnt+1 .. hi` followed by the left-anchor cells of the
same rows, clipped at the current logical column boundary. -/

def annPositions (cfg : Cfg) (rchars : List Char) (pcnt2 : ℕ) : List (ℚ × ℚ) :=
  let cleanCmt := cfg.cmtNop.filter (fun c => c ≠ '|')
  let rctmp0 := rchars.filter (fun c => c ∉ cleanCmt)
  let rctmp := if cfg.vline then rctmp0.filter (fun c => c ≠ '《' ∧ c ≠ '》') else rctmp0
  let len := rctmp.length
  let cnt := if len % 2 = 0 then len / 2 else len / 2 + 1
  let p := pcnt2 / 2
  let pcol := if (p + 1) % cfg.R = 0 then p / cfg.R else p / cfg.R + 1
  let hi := if p + cnt ≤ pcol * cfg.R then p + cnt else pcol * cfg.R
  ((cfg.posR.drop (p + 1)).take (hi - p)) ++ ((cfg.posL.drop (p + 1)).take (hi - p))

/-- The annotation block of the main loop (lines 876-1030): run the inner
loop on the queue; if characters remain the outer loop continues (`Bool`
result `true`); otherwise the pointer is rounded half-up once
(`pcnt = int(pcnt + 0.5)`) and the outer loop continues only when the page
is full. -/

def annBlock (cfg : Cfg) (s : St) : List Ev × St × Bool :=
  let res := annLoop cfg s.rchars (annPositions cfg s.rchars s.pcnt2) s.pcnt2 s.flagR (0, 0)
  if res.rem ≠ [] then
    (res.evs, { s with rchars := res.rem, pcnt2 := res.p2, flagR := res.fR }, true)
  else
    let p2 := 2 * ((res.p2 + 1) / 2)
    ((res.evs), { s with rchars := [], pcnt2 := p2, flagR := res.fR },
      decide (2 * cfg.N ≤ p2))

/-- The page-jump directives discard up to `row_num - 1` pad spaces
(`for _ in range(self.row_num - 1): if chars and chars[0] == ' ': chars.pop(0)`). -/

def skipPad : ℕ → List Char → List Char
  | 0, l => l
  | n + 1, l =>
    match l with
    | c :: rest => if c = ' ' then skipPad n rest else l
    | [] => l

/-- The `【` branch (lines 1071-1083): characters up to the matching `】` move
into the annotation queue. -/

def splitAnn (l : List Char) : List Char × List Char :=
  (l.takeWhile (fun x => x ≠ '】'), (l.dropWhile (fun x => x ≠ '】')).tail)

/-- Body glyph placement (lines 1086-1177): pointer advance, font resolution,
non-cell-consuming punctuation at the previous glyph's coordinate with the
pointer stepped back, 90°-rotated punctuation, the side rule, and the
page-end lookahead that pulls a following `text_comma_nop` character onto
the just-completed page. -/

def bodyGlyph (cfg : Cfg) (s : St) (ch : Char) (rest : List Char) : List Ev × St :=
  let p2a := if s.pcnt2 < 2 * cfg.N then s.pcnt2 + 2 else s.pcnt2
  if p2a ≤ 2 * cfg.N ∧ p2a / 2 ≤ cfg.posL.length - 1 then
    match resolveBody cfg ch with
    | (_, none) => ([], { s with chars := rest, pcnt2 := p2a })
    | (ch2, some fn) =>
      if cfg.registered fn = false then ([], { s with chars := rest, pcnt2 := p2a })
      else
        let fsize := cfg.bodySize fn
        let lp := cfg.posL.getD (p2a / 2) (0, 0)
        let fcolor := if cfg.onlyPeriod ∧ ch2 = '。' then cfg.opColor else cfg.textColor
        if ch2 ∈ cfg.textNop then
          let fx := s.last.1 + cfg.cw * cfg.tNopX
          let fy0 := s.last.2 - cfg.rh * cfg.tNopY
          let fy := if fy0 - cfg.mb < 10 then cfg.mb + 10 else fy0
          let ev := Ev.glyph ch2 fx fy fn (fsize * cfg.tNopSize) (cfg.deg fn) fcolor
          let rules := if cfg.vline ∧ s.flagT then [mkRuleT cfg fx fy] else []
          -- pcnt -= 1, so the page-end lookahead `pcnt == page_chars_num`
          -- cannot fire in this branch (p2a - 2 < 2*N)
          (ev :: rules, { s with chars := rest, pcnt2 := p2a - 2 })
        else
          let a : ℚ × ℚ × ℚ × ℚ :=
            if ch2 ∈ cfg.text90 then
              (lp.1 + cfg.cw * cfg.t90X, lp.2 + cfg.rh * cfg.t90Y,
               fsize * cfg.t90Size, (-90 : ℚ))
            else (lp.1 + (cfg.cw - fsize) / 2, lp.2, fsize, cfg.deg fn)
          let ev := Ev.glyph ch2 a.1 a.2.1 fn a.2.2.1 a.2.2.2 fcolor
          let rules := if cfg.vline ∧ s.flagT then [mkRuleT cfg a.1 a.2.1] else []
          if p2a = 2 * cfg.N then
            match rest with
            | nc :: rest2 =>
              if nc ∈ cfg.textNop then
                let fxn := a.1 + cfg.cw * cfg.tNopX
                let fyn0 := a.2.1 - cfg.rh * cfg.tNopY
                let fyn := if fyn0 - cfg.mb < 10 then cfg.mb + 10 else fyn0
                let ev2 := Ev.glyph nc fxn fyn fn (a.2.2.1 * cfg.tNopSize) 0 fcolor
                (ev :: rules ++ [ev2],
                 { s with chars := rest2, pcnt2 := p2a, last := (a.1, a.2.1) })
              else (ev :: rules, { s with chars := rest, pcnt2 := p2a, last := (a.1, a.2.1) })
            | [] => (ev :: rules, { s with chars := rest, pcnt2 := p2a, last := (a.1, a.2.1) })
          else (ev :: rules, { s with chars := rest, pcnt2 := p2a, last := (a.1, a.2.1) })
  else ([], { s with chars := rest, pcnt2 := p2a })

/-- The body part of one main-loop iteration (lines 1032-1177): stop when the
stream is exhausted, otherwise pop one character and dispatch on the control
markers `$`, `%`, `&`, `《`, `》`, `【`, falling through to glyph placement. -/

def bodyStep (cfg : Cfg) (s : St) : List Ev × Option St :=
  match s.chars with
  | [] => ([], none)
  | ch :: rest =>
    if ch = '$' then
      let rest1 := skipPad (cfg.R - 1) rest
      let p2 := if s.pcnt2 = 0 ∨ s.pcnt2 = 2 * (cfg.N / 2) then s.pcnt2
                else if s.pcnt2 < 2 * (cfg.N / 2) then 2 * (cfg.N / 2) else 2 * cfg.N
      ([], some { s with chars := rest1, pcnt2 := p2 })
    else if ch = '%' then
      ([], some { s with chars := skipPad (cfg.R - 1) rest, pcnt2 := 2 * cfg.N })
    else if ch = '&' then
      let rest1 := skipPad (cfg.R - 1) rest
      let p2 := if s.pcnt2 ≤ 2 * (cfg.N - cfg.R + 1) then 2 * (cfg.N - cfg.R) else s.pcnt2
      ([], some { s with chars := rest1, pcnt2 := p2 })
    else if ch = '《' then ([], some { s with chars := rest, flagT := true })
    else if ch = '》' then ([], some { s with chars := rest, flagT := false })
    else if ch = '【' then
      let sp := splitAnn rest
      ([], some { s with chars := sp.2, rchars := sp.1 })
    else
      let r := bodyGlyph cfg s ch rest
      (r.1, some r.2)

/-- The page-boundary check at the top of the main loop (lines 845-873):
when the pointer has reached `page_chars_num` or the stream is exhausted,
the page index is incremented, the pointer reset to `0`, and the page number
emitted; the loop exits (`none`) on an exhausted stream, otherwise a new
canvas is opened. -/

def topCheck (cfg : Cfg) (s : St) : List Ev × Option St :=
  if 2 * cfg.N ≤ s.pcnt2 ∨ s.chars = [] then
    if s.chars = [] then ([Ev.page (s.pid + 1)], none)
    else ([Ev.page (s.pid + 1), Ev.newPage (s.pid + 1)],
          some { s with pid := s.pid + 1, pcnt2 := 0 })
  else ([], some s)

/-- One iteration of the `while True` main loop: the page-boundary check at
the top, then the annotation block, then the body step.  `none` means the
loop exits. -/

def loopBody (cfg : Cfg) (s : St) : List Ev × Option St :=
  match topCheck cfg s with
  | (evs0, none) => (evs0, none)
  | (evs0, some s1) =>
    if s1.rchars ≠ [] then
      let r := annBlock cfg s1
      if r.2.2 then (evs0 ++ r.1, some r.2.1)
      else
        let b := bodyStep cfg r.2.1
        (evs0 ++ r.1 ++ b.1, b.2)
    else
      let b := bodyStep cfg s1
      (evs0 ++ b.1, b.2)

/-- Fuel-indexed iteration of the main loop; the `Bool` is `true` when the
loop exited by itself before the fuel ran out. -/

def run (cfg : Cfg) : ℕ → St → List Ev × Bool
  | 0, _ => ([], false)
  | fuel + 1, s =>
    match loopBody cfg s with
    | (evs, none) => (evs, true)
    | (evs, some s') =>
      let r := run cfg fuel s'
      (evs ++ r.1, r.2)

/-- The whole layout of one text: `chars = list(dat)`, `rchars = []`, and
the loop runs to completion (the fuel bound is proved sufficient below). -/

def processText (cfg : Cfg) (chars : List Char) (pcnt2 pid : ℕ) : List Ev × Bool :=
  run cfg (chars.length + 1) ⟨chars, [], pcnt2, pid, false, false, (0, 0)⟩

/-- Concrete geometry for engine witnesses: 2 columns of 4 rows. -/

def geoW : Geo :=
  { W := 6, H := 6, mt := 1, mb := 1, ml := 1, mr := 1, C := 2, g := 1, R := 4, dy := 0 }

/-- Concrete engine configuration for witnesses: every font supports every
character, script fallback disabled, `、` the only non-cell-consuming mark. -/

def cfgW : Cfg where
  N := 8
  R := 4
  posL := pos_l geoW
  posR := pos_r geoW
  cw := 3/2
  rh := 1
  mb := 1
  mt := 1
  cH := 6
  fns := ["f1"]
  tfns := ["f1"]
  cfns := ["f1"]
  hasGlyph := fun _ _ => true
  registered := fun _ => true
  bodySize := fun _ => 1
  cmtSize := fun _ => 1
  deg := fun _ => 0
  trySt := false
  stTrans := fun _ => none
  textNop := ['、']
  text90 := []
  cmtNop := ['、']
  cmt90 := []
  tNopSize := 1
  tNopX := 0
  tNopY := 0
  t90Size := 1
  t90X := 0
  t90Y := 0
  cNopSize := 1
  cNopX := 0
  cNopY := 0
  c90Size := 1
  c90X := 0
  c90Y := 0
  vline := false
  onlyPeriod := false
  textColor := "black"
  cmtColor := "black"
  opColor := ""

/-! ### Structural lemmas about the engine -/

lemma gridCols_length (R : ℕ) (f : ℕ → ℕ → ℚ × ℚ) (n : ℕ) :
    (gridCols R f n).length = n * R := by
  induction n with
  | zero => simp [gridCols]
  | succ n ih => simp [gridCols, ih, Nat.succ_mul]

lemma gridCols_getElem? (R : ℕ) (f : ℕ → ℕ → ℚ × ℚ) (n k : ℕ) (hk : k < n * R) :
    (gridCols R f n)[k]? = some (f (k / R + 1) (k % R + 1)) := by
  induction n generalizing k with
  | zero => simp at hk
  | succ n ih =>
    have hk' : k < n * R + R := by rw [Nat.succ_mul] at hk; exact hk
    have hR : 0 < R := by
      rcases Nat.eq_zero_or_pos R with h | h
      · subst h; simp at hk'
      · exact h
    rw [gridCols, List.getElem?_append]
    rw [gridCols_length]
    by_cases h : k < n * R
    · simp only [h, if_true]
      exact ih k h
    · simp only [h, if_false]
      have h1 : k - n * R < R := by omega
      rw [List.getElem?_map, List.getElem?_range h1]
      have hk2 : k = R * n + (k - n * R) := by
        rw [Nat.mul_comm]; omega
      have hdiv : k / R = n := by
        rw [hk2, Nat.mul_add_div hR, Nat.div_eq_of_lt h1]
        omega
      have hmod : k % R = k - n * R := by
        conv_lhs => rw [hk2]
        rw [Nat.mul_add_mod]
        exact Nat.mod_eq_of_lt h1
      simp [hdiv, hmod]

lemma pos_l_length (geo : Geo) : (pos_l geo).length = geo.C * geo.R + 1 := by
  simp [pos_l, gridCols_length]

lemma pos_r_length (geo : Geo) : (pos_r geo).length = geo.C * geo.R + 1 := by
  simp [pos_r, gridCols_length]

lemma pos_l_getElem? (geo : Geo) (k : ℕ) (h1 : 1 ≤ k) (h2 : k ≤ geo.C * geo.R) :
    (pos_l geo)[k]? = some (cellL geo ((k - 1) / geo.R + 1) ((k - 1) % geo.R + 1)) := by
  obtain ⟨m, rfl⟩ : ∃ m, k = m + 1 := ⟨k - 1, by omega⟩
  rw [pos_l, List.getElem?_cons_succ]
  simp only [Nat.add_sub_cancel]
  exact gridCols_getElem? _ _ _ m (by omega)

lemma pos_r_getElem? (geo : Geo) (k : ℕ) (h1 : 1 ≤ k) (h2 : k ≤ geo.C * geo.R) :
    (pos_r geo)[k]? = some (cellR geo ((k - 1) / geo.R + 1) ((k - 1) % geo.R + 1)) := by
  obtain ⟨m, rfl⟩ : ∃ m, k = m + 1 := ⟨k - 1, by omega⟩
  rw [pos_r, List.getElem?_cons_succ]
  simp only [Nat.add_sub_cancel]
  exact gridCols_getElem? _ _ _ m (by omega)

/-- The source's integer-division column test `i <= col_num // 2` agrees with
the spec's exact reading `i ≤ C / 2`. -/

lemma col_half_iff (i C : ℕ) : i ≤ C / 2 ↔ (i : ℚ) ≤ (C : ℚ) / 2 := by
  rw [Nat.le_div_iff_mul_le (by norm_num : 0 < 2)]
  rw [le_div_iff₀ (by norm_num : (0:ℚ) < 2)]
  exact_mod_cast Iff.rfl

/-- `⌈k/R⌉` as the spec writes it equals the source index arithmetic. -/

lemma ceil_div_eq (k R : ℕ) (h1 : 1 ≤ k) (hR : 0 < R) :
    (k + R - 1) / R = (k - 1) / R + 1 := by
  obtain ⟨m, rfl⟩ : ∃ m, k = m + 1 := ⟨k - 1, by omega⟩
  have h2 : m + 1 + R - 1 = m + R := by omega
  rw [h2, Nat.add_div_right _ hR, Nat.add_sub_cancel]

lemma cell_inRect (geo : Geo) (hv : validGeo geo) (hg : 0 ≤ geo.g)
    (hdy0 : 0 ≤ geo.dy) (hdy : geo.dy ≤ rhQ geo)
    (i j : ℕ) (hi1 : 1 ≤ i) (hi2 : i ≤ geo.C) (hj1 : 1 ≤ j) (hj2 : j ≤ geo.R) :
    inRect geo (cellL geo i j) ∧ inRect geo (cellR geo i j) := by
  obtain ⟨hW, hH, hC, hR⟩ := hv
  have hCQ : (0:ℚ) < (geo.C : ℚ) := by exact_mod_cast hC
  have hRQ : (0:ℚ) < (geo.R : ℚ) := by exact_mod_cast hR
  have hcw : 0 < cwQ geo := div_pos (by linarith) hCQ
  have hrh : 0 < rhQ geo := div_pos (by linarith) hRQ
  have hcwC : cwQ geo * (geo.C : ℚ) = geo.W - geo.ml - geo.mr - geo.g :=
    div_mul_cancel₀ _ (ne_of_gt hCQ)
  have hrhR : rhQ geo * (geo.R : ℚ) = geo.H - geo.mt - geo.mb :=
    div_mul_cancel₀ _ (ne_of_gt hRQ)
  have hiQ1 : (1:ℚ) ≤ (i : ℚ) := by exact_mod_cast hi1
  have hiQ2 : (i:ℚ) ≤ (geo.C : ℚ) := by exact_mod_cast hi2
  have hjQ1 : (1:ℚ) ≤ (j : ℚ) := by exact_mod_cast hj1
  have hjQ2 : (j:ℚ) ≤ (geo.R : ℚ) := by exact_mod_cast hj2
  have hx1 : cwQ geo * 1 ≤ cwQ geo * i := mul_le_mul_of_nonneg_left hiQ1 hcw.le
  have hx2 : cwQ geo * i ≤ cwQ geo * (geo.C : ℚ) := mul_le_mul_of_nonneg_left hiQ2 hcw.le
  have hy1 : rhQ geo * 1 ≤ rhQ geo * j := mul_le_mul_of_nonneg_left hjQ1 hrh.le
  have hy2 : rhQ geo * j ≤ rhQ geo * (geo.R : ℚ) := mul_le_mul_of_nonneg_left hjQ2 hrh.le
  unfold inRect cellR cellL
  dsimp only
  split_ifs <;>
    refine ⟨⟨by linarith, by linarith, by linarith, by linarith⟩,
            by linarith, by linarith, by linarith, by linarith⟩

set_option maxHeartbeats 1600000 in
lemma annLoop_no_page (cfg : Cfg) (q : ℕ) :
    ∀ (rcs : List Char) (rpos : List (ℚ × ℚ)) (p2 : ℕ) (fR : Bool) (rl : ℚ × ℚ),
      Ev.page q ∉ (annLoop cfg rcs rpos p2 fR rl).evs := by
  intro rcs
  induction rcs with
  | nil =>
    intro rpos p2 fR rl
    simp [annLoop]
  | cons rc rest ih =>
    intro rpos p2 fR rl
    rw [annLoop]
    repeat' split
    all_goals try dsimp only
    all_goals simp [mkRuleC, ih]

set_option maxHeartbeats 1600000 in
lemma annLoop_rem_length (cfg : Cfg) :
    ∀ (rcs : List Char) (rpos : List (ℚ × ℚ)) (p2 : ℕ) (fR : Bool) (rl : ℚ × ℚ),
      (annLoop cfg rcs rpos p2 fR rl).rem.length ≤ rcs.length - 1 := by
  intro rcs
  induction rcs with
  | nil =>
    intro rpos p2 fR rl
    simp [annLoop]
  | cons rc rest ih =>
    intro rpos p2 fR rl
    have hle : ∀ (rpos' : List (ℚ × ℚ)) (p2' : ℕ) (fR' : Bool) (rl' : ℚ × ℚ),
        (annLoop cfg rest rpos' p2' fR' rl').rem.length ≤ (rc :: rest).length - 1 := by
      intro rpos' p2' fR' rl'
      have := ih rpos' p2' fR' rl'
      simp only [List.length_cons]
      omega
    rw [annLoop]
    repeat' split
    all_goals try dsimp only
    all_goals first
      | exact hle _ _ _ _
      | (simp only [List.length_cons]; omega)

set_option maxHeartbeats 1600000 in
lemma bodyGlyph_chars_rchars (cfg : Cfg) (s : St) (ch : Char) (rest : List Char) :
    (bodyGlyph cfg s ch rest).2.chars.length ≤ rest.length ∧
      (bodyGlyph cfg s ch rest).2.rchars = s.rchars := by
  rw [bodyGlyph]
  repeat' split
  all_goals try dsimp only
  all_goals refine ⟨?_, rfl⟩
  all_goals simp_all [List.length_cons]

lemma skipPad_length_le : ∀ (n : ℕ) (l : List Char), (skipPad n l).length ≤ l.length := by
  intro n
  induction n with
  | zero => intro l; simp [skipPad]
  | succ n ih =>
    intro l
    cases l with
    | nil => simp [skipPad]
    | cons c rest =>
      rw [skipPad]
      split_ifs with hc
      · have := ih rest
        simp only [List.length_cons]
        omega
      · exact Nat.le_refl _

lemma splitAnn_length (l : List Char) :
    (splitAnn l).1.length + (splitAnn l).2.length ≤ l.length := by
  have h := congrArg List.length (List.takeWhile_append_dropWhile (p := fun x => x ≠ '】') (l := l))
  rw [List.length_append] at h
  have ht := List.length_tail (l.dropWhile (fun x => x ≠ '】'))
  simp only [splitAnn]
  omega

lemma bodyStep_decrease (cfg : Cfg) (s s' : St)
    (h : (bodyStep cfg s).2 = some s') :
    s'.chars.length + s'.rchars.length < s.chars.length + s.rchars.length := by
  rcases hc : s.chars with _ | ⟨ch, rest⟩
  · rw [bodyStep, hc] at h
    simp at h
  · rw [bodyStep, hc] at h
    have hsp : (skipPad (cfg.R - 1) rest).length ≤ rest.length := skipPad_length_le _ _
    have hann := splitAnn_length rest
    have hbg := bodyGlyph_chars_rchars cfg s ch rest
    have hbg1 := hbg.1
    have hbg2 := congrArg List.length hbg.2
    simp only at h
    split_ifs at h <;>
      (simp only [Option.some.injEq] at h; subst h; simp only [hc, List.length_cons]; omega)

set_option maxHeartbeats 1600000 in
lemma bodyGlyph_no_page (cfg : Cfg) (s : St) (ch : Char) (rest : List Char) (q : ℕ) :
    Ev.page q ∉ (bodyGlyph cfg s ch rest).1 := by
  rw [bodyGlyph]
  repeat' split
  all_goals try dsimp only
  all_goals simp [mkRuleT]

lemma bodyStep_no_page (cfg : Cfg) (s : St) (q : ℕ) :
    Ev.page q ∉ (bodyStep cfg s).1 := by
  rw [bodyStep]
  rcases s.chars with _ | ⟨ch, rest⟩
  · simp
  · dsimp only
    split_ifs
    all_goals simp
    exact bodyGlyph_no_page cfg s ch rest q

lemma annBlock_no_page (cfg : Cfg) (s : St) (q : ℕ) :
    Ev.page q ∉ (annBlock cfg s).1 := by
  rw [annBlock]
  split
  · exact annLoop_no_page cfg q _ _ _ _ _
  · exact annLoop_no_page cfg q _ _ _ _ _

lemma annBlock_chars (cfg : Cfg) (s : St) : (annBlock cfg s).2.1.chars = s.chars := by
  rw [annBlock]
  split <;> rfl

lemma annBlock_rchars_length (cfg : Cfg) (s : St) :
    (annBlock cfg s).2.1.rchars.length ≤ s.rchars.length - 1 := by
  rw [annBlock]
  split
  · exact annLoop_rem_length cfg _ _ _ _ _
  · dsimp only
    simp

lemma topCheck_fields (cfg : Cfg) (s : St) (evs0 : List Ev) (s1 : St)
    (h : topCheck cfg s = (evs0, some s1)) :
    s1.chars = s.chars ∧ s1.rchars = s.rchars := by
  rw [topCheck] at h
  split_ifs at h with h1 h2
  · simp at h
  · simp only [Prod.mk.injEq, Option.some.injEq] at h
    obtain ⟨-, h⟩ := h
    subst h
    exact ⟨rfl, rfl⟩
  · simp only [Prod.mk.injEq, Option.some.injEq] at h
    obtain ⟨-, h⟩ := h
    subst h
    exact ⟨rfl, rfl⟩

lemma loopBody_decrease (cfg : Cfg) (s s' : St)
    (h : (loopBody cfg s).2 = some s') :
    s'.chars.length + s'.rchars.length < s.chars.length + s.rchars.length := by
  rw [loopBody] at h
  rcases ht : topCheck cfg s with ⟨evs0, os⟩
  rw [ht] at h
  cases os with
  | none => simp at h
  | some s1 =>
    obtain ⟨hch, hrch⟩ := topCheck_fields cfg s evs0 s1 ht
    dsimp only at h
    by_cases hr : s1.rchars ≠ []
    · rw [if_pos hr] at h
      have hbch := annBlock_chars cfg s1
      have hbrch := annBlock_rchars_length cfg s1
      have hrlen : 1 ≤ s1.rchars.length := by
        cases hq : s1.rchars with
        | nil => exact absurd hq hr
        | cons a l => simp [hq]
      rw [hrch] at hrlen
      split_ifs at h
      · simp only [Option.some.injEq] at h
        subst h
        have e1 := congrArg List.length hbch
        rw [hch] at e1
        rw [hrch] at hbrch
        omega
      · have hb := bodyStep_decrease cfg (annBlock cfg s1).2.1 s' h
        have e1 := congrArg List.length hbch
        rw [hch] at e1
        rw [hrch] at hbrch
        omega
    · rw [if_neg hr] at h
      push_neg at hr
      have hb := bodyStep_decrease cfg s1 s' h
      have e1 : s1.chars.length = s.chars.length := by rw [hch]
      have e2 : s1.rchars.length = s.rchars.length := by rw [hrch]
      omega

lemma run_halts (cfg : Cfg) :
    ∀ (fuel : ℕ) (s : St), s.chars.length + s.rchars.length < fuel →
      (run cfg fuel s).2 = true := by
  intro fuel
  induction fuel with
  | zero =>
    intro s h
    omega
  | succ n ih =>
    intro s h
    rw [run]
    rcases hl : loopBody cfg s with ⟨evs, os⟩
    cases os with
    | none => rfl
    | some s' =>
      dsimp only
      have hd := loopBody_decrease cfg s s' (by rw [hl])
      exact ih s' (by omega)

lemma skipPad_eq_drop : ∀ (n : ℕ) (l : List Char),
    skipPad n l = l.drop (min n (l.takeWhile (fun c => c = ' ')).length) := by
  intro n
  induction n with
  | zero =>
    intro l
    simp [skipPad]
  | succ n ih =>
    intro l
    cases l with
    | nil => simp [skipPad]
    | cons c rest =>
      rw [skipPad]
      by_cases hc : c = ' '
      · subst hc
        rw [if_pos rfl, ih rest]
        rw [List.takeWhile_cons]
        simp only [decide_True, if_true]
        rw [List.length_cons]
        have hmin : min (n + 1) ((rest.takeWhile (fun c => c = ' ')).length + 1)
            = min n (rest.takeWhile (fun c => c = ' ')).length + 1 := by
          omega
        rw [hmin, List.drop_succ_cons]
      · rw [if_neg hc]
        rw [List.takeWhile_cons]
        simp only [hc, decide_False, if_false]
        simp

lemma resolveCmt_found (cfg : Cfg) (rc : Char) (fn : String)
    (h2 : get_font cfg rc cfg.cfns = some fn) (hts : cfg.trySt = false) :
    resolveCmt cfg rc = (rc, some fn) := by
  simp [resolveCmt, h2, hts]

lemma resolveBody_found (cfg : Cfg) (ch : Char) (fn : String)
    (h2 : get_font cfg ch cfg.tfns = some fn) :
    resolveBody cfg ch = (ch, some fn) := by
  simp [resolveBody, h2]

/-!
### Claim theorems for the pagination engine
-/

/-- C1: the page capacity is `C * R` (`page_chars_num = col_num * row_num`,
and the grid holds exactly that many cells); at the top of every main-loop
iteration a page-boundary event (page increment, page-number emission,
cursor reset to `0`) fires precisely when the cursor has reached `C*R`
(`2*N` in half cells) or the body stream is exhausted — and a page-number
event is emitted in an iteration exactly under that condition, never
elsewhere in the iteration. -/

theorem claim_C1_page_boundary :
    (∀ geo : Geo, (pos_l geo).length - 1 = pageCharsNum geo ∧
      pageCharsNum geo = geo.C * geo.R) ∧
    (∀ (cfg : Cfg) (s : St), (2 * cfg.N ≤ s.pcnt2 ∨ s.chars = []) →
      topCheck cfg s =
        (if s.chars = [] then ([Ev.page (s.pid + 1)], none)
         else ([Ev.page (s.pid + 1), Ev.newPage (s.pid + 1)],
               some { s with pid := s.pid + 1, pcnt2 := 0 }))) ∧
    (∀ (cfg : Cfg) (s : St), ¬(2 * cfg.N ≤ s.pcnt2 ∨ s.chars = []) →
      topCheck cfg s = ([], some s)) ∧
    (∀ (cfg : Cfg) (s : St),
      (∃ q, Ev.page q ∈ (loopBody cfg s).1) ↔ (2 * cfg.N ≤ s.pcnt2 ∨ s.chars = [])) := by
  refine ⟨?_, ?_, ?_, ?_⟩
  · intro geo
    rw [pos_l_length]
    exact ⟨rfl, rfl⟩
  · intro cfg s h
    rw [topCheck, if_pos h]
  · intro cfg s h
    rw [topCheck, if_neg h]
  · intro cfg s
    constructor
    · rintro ⟨q, hq⟩
      by_contra hcond
      rw [loopBody, topCheck, if_neg hcond] at hq
      dsimp only at hq
      by_cases hr : s.rchars ≠ []
      · rw [if_pos hr] at hq
        split_ifs at hq
        · rw [List.nil_append] at hq
          exact annBlock_no_page cfg s q hq
        · rw [List.nil_append, List.mem_append] at hq
          rcases hq with hq | hq
          · exact annBlock_no_page cfg s q hq
          · exact bodyStep_no_page cfg _ q hq
      · rw [if_neg hr, List.nil_append] at hq
        exact bodyStep_no_page cfg s q hq
    · intro hcond
      refine ⟨s.pid + 1, ?_⟩
      rw [loopBody, topCheck, if_pos hcond]
      by_cases hch : s.chars = []
      · rw [if_pos hch]
        simp
      · rw [if_neg hch]
        dsimp only
        split_ifs <;> simp

/-- C1 witness: a page-boundary fires on an exhausted stream. -/

theorem claim_C1_page_boundary_witness :
    ∃ q, Ev.page q ∈ (loopBody
      { N := 8, R := 4, posL := [], posR := [], cw := 1, rh := 1, mb := 0, mt := 0,
        cH := 100, fns := ["f1"], tfns := ["f1"], cfns := ["f1"],
        hasGlyph := fun _ _ => true, registered := fun _ => true,
        bodySize := fun _ => 1, cmtSize := fun _ => 1, deg := fun _ => 0,
        trySt := false, stTrans := fun _ => none,
        textNop := [], text90 := [], cmtNop := [], cmt90 := [],
        tNopSize := 1, tNopX := 0, tNopY := 0, t90Size := 1, t90X := 0, t90Y := 0,
        cNopSize := 1, cNopX := 0, cNopY := 0, c90Size := 1, c90X := 0, c90Y := 0,
        vline := false, onlyPeriod := false,
        textColor := "black", cmtColor := "black", opColor := "" }
      ⟨[], [], 0, 0, false, false, (0, 0)⟩).1 :=
  (claim_C1_page_boundary.2.2.2 _ _).mpr (Or.inr rfl)

/-- C2: grid index `k` in `1..C*R` is assigned to column `i = ⌈k/R⌉` and row
`j = ((k-1) mod R) + 1`; the left anchor is at
`x = W - mr - cw*i` (minus the gutter when `i > C/2`),
`y = H - mt - rh*j + dy`, and the right anchor is at `x + cw/2` at the same
`y`. -/

theorem claim_C2_positions (geo : Geo) (k : ℕ)
    (h1 : 1 ≤ k) (h2 : k ≤ geo.C * geo.R) (hR : 0 < geo.R) :
    ∃ x y : ℚ,
      (pos_l geo)[k]? = some (x, y) ∧
      (pos_r geo)[k]? = some (x + cwQ geo / 2, y) ∧
      x = (if (((k + geo.R - 1) / geo.R : ℕ) : ℚ) ≤ (geo.C : ℚ) / 2
           then geo.W - geo.mr - cwQ geo * (((k + geo.R - 1) / geo.R : ℕ) : ℚ)
           else geo.W - geo.mr - cwQ geo * (((k + geo.R - 1) / geo.R : ℕ) : ℚ) - geo.g) ∧
      y = geo.H - geo.mt - rhQ geo * ((((k - 1) % geo.R + 1 : ℕ)) : ℚ) + geo.dy := by
  have hi : (k + geo.R - 1) / geo.R = (k - 1) / geo.R + 1 := ceil_div_eq k geo.R h1 hR
  refine ⟨(cellL geo ((k - 1) / geo.R + 1) ((k - 1) % geo.R + 1)).1,
          (cellL geo ((k - 1) / geo.R + 1) ((k - 1) % geo.R + 1)).2, ?_, ?_, ?_, ?_⟩
  · rw [pos_l_getElem? geo k h1 h2]
  · rw [pos_r_getElem? geo k h1 h2]
    rfl
  · rw [hi, cellL]
    dsimp only
    by_cases hc : (k - 1) / geo.R + 1 ≤ geo.C / 2
    · rw [if_pos hc, if_pos ((col_half_iff _ _).mp hc)]
    · rw [if_neg hc, if_neg fun h => hc ((col_half_iff _ _).mpr h)]
  · rfl

/-- C2 witness at a concrete geometry and index. -/

theorem claim_C2_positions_witness :
    ∃ x y : ℚ,
      (pos_l geoCex)[1]? = some (x, y) ∧
      (pos_r geoCex)[1]? = some (x + cwQ geoCex / 2, y) ∧
      x = (if (((1 + geoCex.R - 1) / geoCex.R : ℕ) : ℚ) ≤ (geoCex.C : ℚ) / 2
           then geoCex.W - geoCex.mr - cwQ geoCex * (((1 + geoCex.R - 1) / geoCex.R : ℕ) : ℚ)
           else geoCex.W - geoCex.mr - cwQ geoCex * (((1 + geoCex.R - 1) / geoCex.R : ℕ) : ℚ) - geoCex.g) ∧
      y = geoCex.H - geoCex.mt - rhQ geoCex * ((((1 - 1) % geoCex.R + 1 : ℕ)) : ℚ) + geoCex.dy :=
  claim_C2_positions geoCex 1 (by decide) (by decide) (by decide)

/-- C3: with `n` the count of remaining body characters plus `⌈L/2⌉` for each
annotation span of stripped length `L`, the appended pad spaces make the
effective length the smallest multiple of `R` that is `≥ n`, and no spaces
are appended when `n mod R = 0`. -/

theorem claim_C3_row_padding (tn cn : List Char) (vline : Bool) (R n : ℕ)
    (hR : 0 < R) (l : List Char) (hn : n = effN tn cn vline l) :
    n + padCount R n = R * ((n + R - 1) / R) ∧ (n % R = 0 → padCount R n = 0) := by
  obtain ⟨q, r, hr, hn'⟩ : ∃ q r, r < R ∧ n = R * q + r :=
    ⟨n / R, n % R, Nat.mod_lt _ hR, (Nat.div_add_mod n R).symm⟩
  have hq : n / R = q := by
    rw [hn', Nat.mul_add_div hR, Nat.div_eq_of_lt hr]
    omega
  have hrm : n % R = r := by
    rw [hn', Nat.mul_add_mod]
    exact Nat.mod_eq_of_lt hr
  have hs : spacesNum R n = (R : ℤ) - (r : ℤ) := by
    unfold spacesNum
    rw [hq]
    conv_lhs => rw [hn']
    push_cast
    ring
  have hp : padCount R n = if r = 0 then 0 else R - r := by
    unfold padCount
    rw [hs]
    by_cases h0 : r = 0
    · subst h0
      norm_num
    · have hrZ : (0 : ℤ) < (r : ℤ) := by exact_mod_cast Nat.pos_of_ne_zero h0
      have hrR : (r : ℤ) < (R : ℤ) := by exact_mod_cast hr
      rw [if_pos ⟨by linarith, by linarith⟩, if_neg h0]
      omega
  have hceil : (n + R - 1) / R = if r = 0 then q else q + 1 := by
    by_cases h0 : r = 0
    · subst h0
      rw [if_pos rfl, hn']
      have he : R * q + 0 + R - 1 = R * q + (R - 1) := by omega
      rw [he, Nat.mul_add_div hR, Nat.div_eq_of_lt (by omega)]
      omega
    · rw [if_neg h0, hn']
      have he : R * q + r + R - 1 = R * (q + 1) + (r - 1) := by
        rw [Nat.mul_succ]
        omega
      rw [he, Nat.mul_add_div hR, Nat.div_eq_of_lt (by omega)]
  constructor
  · rw [hp, hceil]
    by_cases h0 : r = 0
    · rw [if_pos h0, if_pos h0, hn', h0]
      omega
    · rw [if_neg h0, if_neg h0, hn', Nat.mul_succ]
      omega
  · intro hmod
    rw [hrm] at hmod
    rw [hp, if_pos hmod]

/-- C3 witness: `R = 4`, body `ABC` plus annotation span `XYZ`
(`n = 3 + ⌈3/2⌉ = 5`, padding `3`, padded length `8 = 4*2`). -/

theorem claim_C3_row_padding_witness :
    (5 : ℕ) + padCount 4 5 = 4 * ((5 + 4 - 1) / 4) ∧ ((5 : ℕ) % 4 = 0 → padCount 4 5 = 0) :=
  claim_C3_row_padding ['、'] [] false 4 5 (by decide)
    ['A', 'B', 'C', '【', 'X', 'Y', 'Z', '】']
    (by simp [effN, effParts, extractSpans, stripChars, stripTitleMarks, spanCost, halfUp,
              List.takeWhile, List.dropWhile])

/-- C4: consuming the `$` directive first discards up to `R-1` immediately
following pad spaces, then leaves the cursor unchanged at `0` or at exactly
`C*R/2`, raises it to `C*R/2` from below, and raises it to `C*R` from above
(forcing a page flush on the next iteration).  Cursor values are stored in
half cells (`pcnt2 = 2 * pcnt`). -/

theorem claim_C4_page_jump (cfg : Cfg) (s : St) (rest : List Char) (p : ℕ)
    (hch : s.chars = '$' :: rest) (hp : s.pcnt2 = 2 * p) :
    bodyStep cfg s =
      ([], some { s with
        chars := rest.drop (min (cfg.R - 1) ((rest.takeWhile (fun c => c = ' ')).length)),
        pcnt2 := if p = 0 ∨ p = cfg.N / 2 then s.pcnt2
                 else if p < cfg.N / 2 then 2 * (cfg.N / 2) else 2 * cfg.N }) := by
  rw [bodyStep, hch]
  dsimp only
  rw [if_pos rfl, skipPad_eq_drop, hp]
  by_cases h1 : p = 0 ∨ p = cfg.N / 2
  · have h1' : 2 * p = 0 ∨ 2 * p = 2 * (cfg.N / 2) := by omega
    rw [if_pos h1', if_pos h1]
  · have h1' : ¬(2 * p = 0 ∨ 2 * p = 2 * (cfg.N / 2)) := by omega
    rw [if_neg h1', if_neg h1]
    by_cases h2 : p < cfg.N / 2
    · rw [if_pos (by omega), if_pos h2]
    · rw [if_neg (by omega), if_neg h2]

/-- C4 witness: directive at cursor `1` (below `C*R/2 = 4`) with one trailing
pad space; the space is discarded and the cursor jumps to `4`. -/

theorem claim_C4_page_jump_witness :
    bodyStep cfgW ⟨['$', ' ', 'A'], [], 2, 0, false, false, (0, 0)⟩ =
      ([], some { (⟨['$', ' ', 'A'], [], 2, 0, false, false, (0, 0)⟩ : St) with
        chars := (([' ', 'A'] : List Char).drop
          (min (cfgW.R - 1) ((([' ', 'A'] : List Char).takeWhile (fun c => c = ' ')).length))),
        pcnt2 := if 1 = 0 ∨ 1 = cfgW.N / 2 then 2
                 else if 1 < cfgW.N / 2 then 2 * (cfgW.N / 2) else 2 * cfgW.N }) :=
  claim_C4_page_jump cfgW ⟨['$', ' ', 'A'], [], 2, 0, false, false, (0, 0)⟩
    [' ', 'A'] 1 rfl rfl

/-- C5: when a pending annotation character finds no remaining slot in the
current column's position run, it is dropped with a warning — the inner loop
stops with the dropped character gone from the queue and the cursor
untouched — and the pagination loop terminates on every finite input (any
fuel beyond `|chars| + |rchars|` iterations suffices). -/

theorem claim_C5_drop_and_termination :
    (∀ (cfg : Cfg) (rc : Char) (rest : List Char) (p2 : ℕ) (fR : Bool) (rl : ℚ × ℚ)
        (fn : String),
      rc ≠ '《' → rc ≠ '》' →
      get_font cfg rc cfg.cfns = some fn → cfg.trySt = false →
      cfg.registered fn = true → rc ∉ cfg.cmtNop →
      annLoop cfg (rc :: rest) [] p2 fR rl =
        ⟨[Ev.warnDrop rc], rest, [], p2, fR, rl⟩) ∧
    (∀ (cfg : Cfg) (fuel : ℕ) (s : St),
      s.chars.length + s.rchars.length < fuel → (run cfg fuel s).2 = true) := by
  constructor
  · intro cfg rc rest p2 fR rl fn hne1 hne2 h2 hts h3 hnop
    rw [annLoop]
    rw [resolveCmt_found cfg rc fn h2 hts]
    simp only [hne1, hne2, h3, hnop, ite_false, ite_true, if_false, if_true,
      false_or, false_and, and_false, or_self, not_false_eq_true,
      Bool.true_eq_false]
  · exact fun cfg => run_halts cfg

/-- C5 witness: with the cursor in the last cell of a column
(`pcnt = 3`, `(pcnt+1) mod R = 0`), the position run is empty, `X` is
dropped with a warning and `Y` stays queued; and a one-glyph book
terminates within its fuel bound. -/

theorem claim_C5_drop_and_termination_witness :
    annLoop cfgW ['X', 'Y'] [] 6 false (0, 0) =
      ⟨[Ev.warnDrop 'X'], ['Y'], [], 6, false, (0, 0)⟩ ∧
    (run cfgW 3 ⟨['A'], [], 0, 0, false, false, (0, 0)⟩).2 = true :=
  ⟨claim_C5_drop_and_termination.1 cfgW 'X' ['Y'] 6 false (0, 0) "f1"
      (by decide) (by decide) rfl rfl rfl (by decide),
   claim_C5_drop_and_termination.2 cfgW 3 ⟨['A'], [], 0, 0, false, false, (0, 0)⟩
      (by decide)⟩

/-- C6 counterexample: the claim as stated fails at the bottom-margin clamp
(`if fy - margins_bottom < 10: fy = margins_bottom + 10`): with the previous
glyph at `y = 5` the `、` glyph is drawn at the clamped `y = mb + 10 = 11`,
not at the predecessor's coordinate plus the configured offsets (`y = 5`);
and a `、` no candidate font supports is replaced by the `□` placeholder,
which is drawn as an ordinary glyph — the cursor advances by a full cell
instead of staying put. -/

theorem claim_C6_cex :
    (bodyGlyph cfgW ⟨['、', 'A'], [], 2, 1, false, false, ((100 : ℚ), (5 : ℚ))⟩ '、' ['A'] =
      ([Ev.glyph '、' 100 11 "f1" 1 0 "black"],
       { (⟨['、', 'A'], [], 2, 1, false, false, ((100 : ℚ), (5 : ℚ))⟩ : St) with
          chars := ['A'] }) ∧
     (11 : ℚ) ≠ (5 : ℚ) - cfgW.rh * cfgW.tNopY) ∧
    ((bodyGlyph { cfgW with hasGlyph := fun _ c => decide (c = '□') }
        ⟨['、', 'A'], [], 2, 1, false, false, ((100 : ℚ), (5 : ℚ))⟩ '、' ['A']).2.pcnt2 = 4 ∧
     (4 : ℕ) ≠ 2) := by
  refine ⟨⟨?_, by norm_num [cfgW]⟩, ?_, by norm_num⟩
  · rw [bodyGlyph, resolveBody_found cfgW '、' "f1" rfl]
    rw [if_pos (show (2 : ℕ) < 2 * cfgW.N by norm_num [cfgW])]
    dsimp only
    rw [if_pos ⟨show (2 : ℕ) + 2 ≤ 2 * cfgW.N by norm_num [cfgW],
        show ((2 : ℕ) + 2) / 2 ≤ cfgW.posL.length - 1 by
          rw [show cfgW.posL = pos_l geoW from rfl, pos_l_length]; norm_num [geoW]⟩]
    rw [show cfgW.registered "f1" = true from rfl]
    rw [if_neg (by simp : ¬(true = false))]
    rw [if_pos (show '、' ∈ cfgW.textNop by decide)]
    rw [if_pos (show ((100 : ℚ), (5 : ℚ)).2 - cfgW.rh * cfgW.tNopY - cfgW.mb < 10 by
      norm_num [cfgW])]
    norm_num [cfgW]
  · rw [bodyGlyph,
      show resolveBody { cfgW with hasGlyph := fun _ c => decide (c = '□') } '、' =
        ('□', some "f1") from rfl]
    rw [if_pos (show (2 : ℕ) < 2 * ({ cfgW with hasGlyph := fun _ c => decide (c = '□') } : Cfg).N
      by norm_num [cfgW])]
    dsimp only
    rw [if_pos ⟨show (2 : ℕ) + 2 ≤ 2 * ({ cfgW with hasGlyph := fun _ c => decide (c = '□') } : Cfg).N
        by norm_num [cfgW],
        show ((2 : ℕ) + 2) / 2 ≤
            ({ cfgW with hasGlyph := fun _ c => decide (c = '□') } : Cfg).posL.length - 1 by
          rw [show ({ cfgW with hasGlyph := fun _ c => decide (c = '□') } : Cfg).posL
            = pos_l geoW from rfl, pos_l_length]; norm_num [geoW]⟩]
    rw [show ({ cfgW with hasGlyph := fun _ c => decide (c = '□') } : Cfg).registered "f1" = true
      from rfl]
    rw [if_neg (by simp : ¬(true = false))]
    rw [if_neg (show ¬('□' ∈ ({ cfgW with hasGlyph := fun _ c => decide (c = '□') } : Cfg).textNop)
      by decide)]
    rw [if_neg (show ¬((2 : ℕ) + 2 = 2 * ({ cfgW with hasGlyph := fun _ c => decide (c = '□') } : Cfg).N)
      by norm_num [cfgW])]

/-- C6 (amended): placing a body character of the non-cell-consuming
punctuation class that resolves in a registered font leaves the cursor
unchanged (advance then step back, net zero) and draws the glyph at the
immediately preceding body glyph's coordinate (`last`) plus the configured
size scale and x/y offsets — except that the resulting y-coordinate is
clamped up to `margins_bottom + 10` when the offset coordinate would fall
within 10 units of the bottom margin. -/

theorem claim_C6_nop_punctuation (cfg : Cfg) (s : St) (ch : Char) (rest : List Char)
    (p : ℕ) (fn : String)
    (hp : s.pcnt2 = 2 * p) (hpN : p < cfg.N)
    (hlen : cfg.posL.length = cfg.N + 1)
    (h1 : ch ∈ cfg.textNop)
    (h2 : get_font cfg ch cfg.tfns = some fn)
    (h3 : cfg.registered fn = true) :
    bodyGlyph cfg s ch rest =
      (Ev.glyph ch (s.last.1 + cfg.cw * cfg.tNopX)
          (if s.last.2 - cfg.rh * cfg.tNopY - cfg.mb < 10 then cfg.mb + 10
           else s.last.2 - cfg.rh * cfg.tNopY) fn
          (cfg.bodySize fn * cfg.tNopSize) (cfg.deg fn)
          (if cfg.onlyPeriod ∧ ch = '。' then cfg.opColor else cfg.textColor)
        :: (if cfg.vline ∧ s.flagT then
              [mkRuleT cfg (s.last.1 + cfg.cw * cfg.tNopX)
                (if s.last.2 - cfg.rh * cfg.tNopY - cfg.mb < 10 then cfg.mb + 10
                 else s.last.2 - cfg.rh * cfg.tNopY)]
            else []),
       { s with chars := rest }) := by
  rw [bodyGlyph, resolveBody_found cfg ch fn h2, hp]
  rw [if_pos (by omega : 2 * p < 2 * cfg.N)]
  dsimp only
  rw [if_pos ⟨by omega, by rw [hlen]; omega⟩]
  rw [h3]
  rw [if_neg (by simp : ¬(true = false))]
  rw [if_pos h1]
  have harith : 2 * p + 2 - 2 = 2 * p := by omega
  rw [harith]

/-- C6 (amended) witness: `、` placed mid-page shares the predecessor's cell
at `last = (100, 100)` and the cursor stays at one cell. -/

theorem claim_C6_nop_punctuation_witness :
    bodyGlyph cfgW ⟨['、', 'A'], [], 2, 1, false, false, ((100 : ℚ), (100 : ℚ))⟩ '、' ['A'] =
      (Ev.glyph '、' ((100 : ℚ) + cfgW.cw * cfgW.tNopX)
          (if (100 : ℚ) - cfgW.rh * cfgW.tNopY - cfgW.mb < 10 then cfgW.mb + 10
           else (100 : ℚ) - cfgW.rh * cfgW.tNopY) "f1"
          (cfgW.bodySize "f1" * cfgW.tNopSize) (cfgW.deg "f1")
          (if cfgW.onlyPeriod ∧ '、' = '。' then cfgW.opColor else cfgW.textColor)
        :: (if cfgW.vline ∧ false then
              [mkRuleT cfgW ((100 : ℚ) + cfgW.cw * cfgW.tNopX)
                (if (100 : ℚ) - cfgW.rh * cfgW.tNopY - cfgW.mb < 10 then cfgW.mb + 10
                 else (100 : ℚ) - cfgW.rh * cfgW.tNopY)]
            else []),
       { (⟨['、', 'A'], [], 2, 1, false, false, ((100 : ℚ), (100 : ℚ))⟩ : St) with
          chars := ['A'] }) :=
  claim_C6_nop_punctuation cfgW ⟨['、', 'A'], [], 2, 1, false, false, ((100 : ℚ), (100 : ℚ))⟩
    '、' ['A'] 1 "f1" rfl (by decide)
    (by rw [show cfgW.posL = pos_l geoW from rfl, pos_l_length]; rfl)
    (by decide) rfl rfl

/-- C7: an annotation character that consumes a sub-column slot advances the
cursor by exactly one half cell (`p2 + 1` in half cells, with no rounding in
between), and the annotation block converts the cursor back to a whole cell
count exactly once — via `int(pcnt + 0.5)`, i.e. `2 * ((p2 + 1) / 2)` in
half cells — when the queue has been exhausted, and not at all when
overflow characters remain queued. -/

theorem claim_C7_half_cell_rounding :
    (∀ (cfg : Cfg) (rc : Char) (rest : List Char) (rp : ℚ × ℚ) (rps : List (ℚ × ℚ))
        (p2 : ℕ) (fR : Bool) (rl : ℚ × ℚ) (fn : String),
      rc ≠ '《' → rc ≠ '》' →
      get_font cfg rc cfg.cfns = some fn → cfg.trySt = false →
      cfg.registered fn = true → rc ∉ cfg.cmtNop → rc ∉ cfg.cmt90 →
      cfg.vline = false →
      annLoop cfg (rc :: rest) (rp :: rps) p2 fR rl =
        ⟨Ev.glyph rc (rp.1 + (cfg.cw - cfg.cmtSize fn * 2) / 4)
            (rp.2 + (cfg.rh - cfg.cmtSize fn) / 4) fn (cfg.cmtSize fn) (cfg.deg fn)
            (if cfg.onlyPeriod ∧ rc = '。' then
              (if cfg.opColor ≠ "" then cfg.opColor else cfg.cmtColor)
             else cfg.cmtColor)
          :: (annLoop cfg rest rps (p2 + 1) fR rp).evs,
         (annLoop cfg rest rps (p2 + 1) fR rp).rem,
         (annLoop cfg rest rps (p2 + 1) fR rp).rpos,
         (annLoop cfg rest rps (p2 + 1) fR rp).p2,
         (annLoop cfg rest rps (p2 + 1) fR rp).fR,
         (annLoop cfg rest rps (p2 + 1) fR rp).rlast⟩) ∧
    (∀ (cfg : Cfg) (s : St) (res : AnnRes),
      res = annLoop cfg s.rchars (annPositions cfg s.rchars s.pcnt2) s.pcnt2 s.flagR (0, 0) →
      (res.rem = [] → (annBlock cfg s).2.1.pcnt2 = 2 * ((res.p2 + 1) / 2)) ∧
      (res.rem ≠ [] → (annBlock cfg s).2.1.pcnt2 = res.p2)) := by
  constructor
  · intro cfg rc rest rp rps p2 fR rl fn hne1 hne2 h2 hts h3 hnop hrot hvl
    rw [annLoop]
    rw [resolveCmt_found cfg rc fn h2 hts]
    simp only [hne1, hne2, h3, hnop, hrot, hvl, ite_false, ite_true, if_false,
      if_true, false_or, false_and, and_false, or_self, not_false_eq_true,
      Bool.true_eq_false, Bool.false_eq_true, List.nil_append,
      List.singleton_append]
  · intro cfg s res hres
    rw [annBlock, ← hres]
    by_cases hrem : res.rem ≠ []
    · rw [if_pos hrem]
      exact ⟨fun h => absurd h hrem, fun _ => rfl⟩
    · rw [if_neg hrem]
      push_neg at hrem
      exact ⟨fun _ => rfl, fun h => absurd hrem h⟩

/-- C7 witness: one slot-consuming annotation character advances the cursor
from `2` to `3` half cells; an emptied queue rounds half-up once. -/

theorem claim_C7_half_cell_rounding_witness :
    (annLoop cfgW ['X'] [((5 : ℚ), (5 : ℚ))] 2 false (0, 0) =
      ⟨Ev.glyph 'X' ((5 : ℚ) + (cfgW.cw - cfgW.cmtSize "f1" * 2) / 4)
          ((5 : ℚ) + (cfgW.rh - cfgW.cmtSize "f1") / 4) "f1" (cfgW.cmtSize "f1")
          (cfgW.deg "f1")
          (if cfgW.onlyPeriod ∧ 'X' = '。' then
            (if cfgW.opColor ≠ "" then cfgW.opColor else cfgW.cmtColor)
           else cfgW.cmtColor)
        :: (annLoop cfgW [] [] 3 false ((5 : ℚ), (5 : ℚ))).evs,
       (annLoop cfgW [] [] 3 false ((5 : ℚ), (5 : ℚ))).rem,
       (annLoop cfgW [] [] 3 false ((5 : ℚ), (5 : ℚ))).rpos,
       (annLoop cfgW [] [] 3 false ((5 : ℚ), (5 : ℚ))).p2,
       (annLoop cfgW [] [] 3 false ((5 : ℚ), (5 : ℚ))).fR,
       (annLoop cfgW [] [] 3 false ((5 : ℚ), (5 : ℚ))).rlast⟩) ∧
    ((annLoop cfgW (['X'] : List Char)
        (annPositions cfgW ['X'] 2) 2 false ((0 : ℚ), (0 : ℚ))).rem = [] →
      (annBlock cfgW ⟨['A'], ['X'], 2, 0, false, false, (0, 0)⟩).2.1.pcnt2 =
        2 * (((annLoop cfgW (['X'] : List Char)
          (annPositions cfgW ['X'] 2) 2 false ((0 : ℚ), (0 : ℚ))).p2 + 1) / 2)) := by
  constructor
  · exact claim_C7_half_cell_rounding.1 cfgW 'X' [] ((5 : ℚ), (5 : ℚ)) [] 2 false (0, 0) "f1"
      (by decide) (by decide) rfl rfl rfl (by decide) (by decide) rfl
  · exact (claim_C7_half_cell_rounding.2 cfgW ⟨['A'], ['X'], 2, 0, false, false, (0, 0)⟩
      _ rfl).1

/-- C8: a non-space character supported by no candidate body font, with
script fallback disabled, never fails fatally: it is replaced by the `□`
placeholder, which resolves via the primary (first) font of the candidate
list whenever that font supports `□`. -/

theorem claim_C8_placeholder (cfg : Cfg) (ch : Char) (f0 : String) (fs : List String)
    (htf : cfg.tfns = f0 :: fs) (hts : cfg.trySt = false)
    (hsp1 : ch ≠ ' ') (hsp2 : ch ≠ '　')
    (hbox : cfg.hasGlyph f0 '□' = true)
    (hnone : ∀ f ∈ cfg.tfns, cfg.hasGlyph f ch = false) :
    resolveBody cfg ch = ('□', some f0) := by
  have hg : get_font cfg ch cfg.tfns = none := by
    rw [get_font, if_neg (by simp [hsp1, hsp2])]
    rw [List.find?_eq_none]
    intro f hf
    simp [hnone f hf]
  have hg2 : get_font cfg '□' cfg.tfns = some f0 := by
    rw [get_font, if_neg (by decide)]
    rw [htf]
    exact List.find?_cons_of_pos _ hbox
  rw [resolveBody]
  rw [hg]
  simp only [hts, and_false, if_false, ite_false, Bool.false_eq_true]
  simp [hg2]

/-- C8 witness: a catalog supporting only `□` resolves `A` to the
placeholder via the primary font. -/

theorem claim_C8_placeholder_witness :
    resolveBody { cfgW with hasGlyph := fun _ c => decide (c = '□') } 'A' =
      ('□', some "f1") :=
  claim_C8_placeholder { cfgW with hasGlyph := fun _ c => decide (c = '□') } 'A'
    "f1" [] rfl rfl (by decide) (by decide) (by decide)
    (by intro f hf; simp)

/-- C9 counterexample: a geometry satisfying the §3 validity invariant whose
first cell coordinate lies above the top margin line (`row_delta_y` larger
than the row height). -/

theorem claim_C9_cex :
    validGeo geoCex ∧ (pos_l geoCex)[1]? = some (1, 11) ∧ ¬ inRect geoCex (1, 11) := by
  refine ⟨by norm_num [validGeo, geoCex], ?_, by norm_num [inRect, geoCex]⟩
  norm_num [pos_l, gridCols, cellL, cwQ, rhQ, geoCex]

/-- C9 (amended): if additionally the gutter width is nonnegative and the row
offset `dy` satisfies `0 ≤ dy ≤ rh`, every generated left- and right-anchor
coordinate lies within `[ml, W - mr] × [mb, H - mt]`. -/

theorem claim_C9_amended (geo : Geo) (hv : validGeo geo) (hg : 0 ≤ geo.g)
    (hdy0 : 0 ≤ geo.dy) (hdy : geo.dy ≤ rhQ geo)
    (k : ℕ) (h1 : 1 ≤ k) (h2 : k ≤ geo.C * geo.R)
    (p q : ℚ × ℚ) (hp : (pos_l geo)[k]? = some p) (hq : (pos_r geo)[k]? = some q) :
    inRect geo p ∧ inRect geo q := by
  have hR : 0 < geo.R := hv.2.2.2
  have hC : 0 < geo.C := hv.2.2.1
  rw [pos_l_getElem? geo k h1 h2] at hp
  rw [pos_r_getElem? geo k h1 h2] at hq
  obtain rfl := (Option.some.inj hp).symm
  obtain rfl := (Option.some.inj hq).symm
  have hdivlt : (k - 1) / geo.R < geo.C := by
    rw [Nat.div_lt_iff_lt_mul hR]
    calc k - 1 < k := by omega
    _ ≤ geo.C * geo.R := h2
  exact cell_inRect geo hv hg hdy0 hdy ((k - 1) / geo.R + 1) ((k - 1) % geo.R + 1)
    (Nat.succ_le_succ (Nat.zero_le _)) hdivlt
    (Nat.succ_le_succ (Nat.zero_le _)) (Nat.mod_lt (k - 1) hR)

/-- C9 (amended) witness at a concrete geometry. -/

theorem claim_C9_amended_witness :
    inRect geoOk ((7:ℚ)/2, 3) ∧ inRect geoOk ((17:ℚ)/4, 3) :=
  claim_C9_amended geoOk (by norm_num [validGeo, geoOk]) (by norm_num [geoOk])
    (by norm_num [geoOk]) (by norm_num [geoOk, rhQ])
    1 (by decide) (by decide) ((7:ℚ)/2, 3) ((17:ℚ)/4, 3)
    (by norm_num [pos_l, gridCols, cellL, cwQ, rhQ, geoOk, List.range_succ])
    (by norm_num [pos_r, gridCols, cellR, cellL, cwQ, rhQ, geoOk, List.range_succ])

/-- C10 counterexample: the claim as stated fails at the bottom-margin clamp
of the page-end lookahead: the page-filling glyph `H` lands in the bottom-row
cell at `y = 1`, so the following `、` is drawn at the clamped
`y = mb + 10 = 11`, not at the last glyph's coordinate plus the configured
offsets (`y = 1`). -/

theorem claim_C10_cex :
    bodyGlyph cfgW ⟨['H', '、', 'I'], [], 14, 0, false, false, (0, 0)⟩ 'H' ['、', 'I'] =
      ([Ev.glyph 'H' ((5 : ℚ)/4) 1 "f1" 1 0 "black",
        Ev.glyph '、' ((5 : ℚ)/4) 11 "f1" 1 0 "black"],
       { (⟨['H', '、', 'I'], [], 14, 0, false, false, (0, 0)⟩ : St) with
          chars := ['I'], pcnt2 := 16, last := ((5 : ℚ)/4, 1) }) ∧
    (11 : ℚ) ≠ (1 : ℚ) - cfgW.rh * cfgW.tNopY := by
  refine ⟨?_, by norm_num [cfgW]⟩
  rw [bodyGlyph, resolveBody_found cfgW 'H' "f1" rfl]
  rw [if_pos (show (14 : ℕ) < 2 * cfgW.N by norm_num [cfgW])]
  dsimp only
  rw [if_pos ⟨show (14 : ℕ) + 2 ≤ 2 * cfgW.N by norm_num [cfgW],
      show ((14 : ℕ) + 2) / 2 ≤ cfgW.posL.length - 1 by
        rw [show cfgW.posL = pos_l geoW from rfl, pos_l_length]; norm_num [geoW]⟩]
  rw [show cfgW.registered "f1" = true from rfl]
  rw [if_neg (by simp : ¬(true = false))]
  rw [if_neg (show ¬('H' ∈ cfgW.textNop) by decide)]
  rw [if_neg (show ¬('H' ∈ cfgW.text90) by decide)]
  rw [if_pos (show (14 : ℕ) + 2 = 2 * cfgW.N by norm_num [cfgW])]
  rw [if_pos (show '、' ∈ cfgW.textNop by decide)]
  norm_num [cfgW, pos_l, gridCols, cellL, cwQ, rhQ, geoW, List.range_succ,
    List.getD_eq_getElem?_getD, mkRuleT]

/-- C10 (amended): a body glyph that fills the last cell of the page (`pcnt`
becomes `C*R`) followed by a non-cell-consuming punctuation character
consumes that character immediately and draws it on the just-completed page
(same page index) at the last glyph's coordinate plus the configured offsets
— except that the resulting y-coordinate is clamped up to
`margins_bottom + 10` when the offset coordinate would fall within 10 units
of the bottom margin. -/

theorem claim_C10_pageend_nop (cfg : Cfg) (s : St) (ch nc : Char) (rest2 : List Char)
    (fn : String) (fx fy : ℚ)
    (hp : s.pcnt2 = 2 * (cfg.N - 1)) (hN : 1 ≤ cfg.N)
    (hlen : cfg.posL.length = cfg.N + 1)
    (hnop : ch ∉ cfg.textNop) (hrot : ch ∉ cfg.text90)
    (h2 : get_font cfg ch cfg.tfns = some fn)
    (h3 : cfg.registered fn = true)
    (hnc : nc ∈ cfg.textNop)
    (hfx : fx = (cfg.posL.getD cfg.N (0, 0)).1 + (cfg.cw - cfg.bodySize fn) / 2)
    (hfy : fy = (cfg.posL.getD cfg.N (0, 0)).2) :
    bodyGlyph cfg s ch (nc :: rest2) =
      (Ev.glyph ch fx fy fn (cfg.bodySize fn) (cfg.deg fn)
          (if cfg.onlyPeriod ∧ ch = '。' then cfg.opColor else cfg.textColor)
        :: (if cfg.vline ∧ s.flagT then [mkRuleT cfg fx fy] else [])
        ++ [Ev.glyph nc (fx + cfg.cw * cfg.tNopX)
              (if fy - cfg.rh * cfg.tNopY - cfg.mb < 10 then cfg.mb + 10
               else fy - cfg.rh * cfg.tNopY) fn
              (cfg.bodySize fn * cfg.tNopSize) 0
              (if cfg.onlyPeriod ∧ ch = '。' then cfg.opColor else cfg.textColor)],
       { s with chars := rest2, pcnt2 := 2 * cfg.N, last := (fx, fy) }) := by
  subst hfx hfy
  rw [bodyGlyph, resolveBody_found cfg ch fn h2, hp]
  rw [if_pos (by omega : 2 * (cfg.N - 1) < 2 * cfg.N)]
  have harith : 2 * (cfg.N - 1) + 2 = 2 * cfg.N := by omega
  rw [harith]
  dsimp only
  rw [if_pos ⟨le_refl _, by rw [hlen]; omega⟩]
  rw [h3]
  rw [if_neg (by simp : ¬(true = false))]
  rw [if_neg hnop]
  rw [if_neg hrot]
  have hdiv : 2 * cfg.N / 2 = cfg.N := by omega
  rw [hdiv]
  rw [if_pos rfl]
  rw [if_pos hnc]

/-- C10 (amended) witness: `H` filling cell 8 of the 2×4 page followed by
`、` draws the punctuation on the same page at the last glyph's coordinates
(here the clamp fires, as the filled cell sits in the bottom row). -/

theorem claim_C10_pageend_nop_witness :
    bodyGlyph cfgW ⟨['H', '、', 'I'], [], 14, 0, false, false, (0, 0)⟩ 'H' ['、', 'I'] =
      (Ev.glyph 'H' ((5 : ℚ)/4) ((1 : ℚ)) "f1" (cfgW.bodySize "f1") (cfgW.deg "f1")
          (if cfgW.onlyPeriod ∧ 'H' = '。' then cfgW.opColor else cfgW.textColor)
        :: (if cfgW.vline ∧ false then [mkRuleT cfgW ((5 : ℚ)/4) 1] else [])
        ++ [Ev.glyph '、' ((5 : ℚ)/4 + cfgW.cw * cfgW.tNopX)
              (if (1 : ℚ) - cfgW.rh * cfgW.tNopY - cfgW.mb < 10 then cfgW.mb + 10
               else (1 : ℚ) - cfgW.rh * cfgW.tNopY)
              "f1" (cfgW.bodySize "f1" * cfgW.tNopSize) 0
              (if cfgW.onlyPeriod ∧ 'H' = '。' then cfgW.opColor else cfgW.textColor)],
       { (⟨['H', '、', 'I'], [], 14, 0, false, false, (0, 0)⟩ : St) with
          chars := ['I'], pcnt2 := 2 * cfgW.N, last := ((5 : ℚ)/4, (1 : ℚ)) }) :=
  claim_C10_pageend_nop cfgW ⟨['H', '、', 'I'], [], 14, 0, false, false, (0, 0)⟩
    'H' '、' ['I'] "f1" ((5 : ℚ)/4) 1 rfl (by decide)
    (by rw [show cfgW.posL = pos_l geoW from rfl, pos_l_length]; rfl)
    (by decide) (by decide) rfl rfl (by decide)
    (by norm_num [cfgW, pos_l, geoW, gridCols, cellL, cwQ, rhQ, List.range_succ,
      List.getD_eq_getElem?_getD])
    (by norm_num [cfgW, pos_l, geoW, gridCols, cellL, cwQ, rhQ, List.range_succ,
      List.getD_eq_getElem?_getD])

end VRain
